import Mathlib

/-!
Shallow embedding of the marp-lens incremental vector indexing and
similarity-search engine: the vector store (`src/core/database.ts`), the
indexing pipeline (`src/commands/index-cmd.ts`) and the Gemini provider
adapter (`src/core/gemini.ts`), together with theorems checking the
natural-language specification against this model.

Modelling conventions: JS numbers are exact rationals (`ℚ`) where
fractional values matter and `Nat` where the code only ever holds
non-negative integers; SQL tables are lists of record structures in
insertion order; fallible operations return `Except String`.
-/

namespace MarpLens

/-- Fixed embedding dimensionality (`EMBEDDING_DIMENSIONS` in database.ts). -/
def EMBEDDING_DIMENSIONS : Nat := 768

/-- An embedding vector. -/
abbrev Vec := List ℚ

/-- A row of the `files` table. -/
structure FileRecord where
  id : Nat
  path : String
  hash : String
  title : Option String
  indexedAt : Nat
deriving DecidableEq

/-- A row of the `slides` table. -/
structure SlideRecord where
  id : Nat
  fileId : Nat
  slideIndex : Nat
  heading : Option String
  content : String
  textOnly : String
  speakerNotes : String
  imageDescriptions : String
deriving DecidableEq

/-- The persistent store: `files`, `slides` and the `slide_embeddings`
vec0 table (rowid paired with the stored vector), plus the AUTOINCREMENT
counters of the two relational tables. -/
structure DB where
  files : List FileRecord
  slides : List SlideRecord
  embeddings : List (Nat × Vec)
  nextFileId : Nat
  nextSlideId : Nat
deriving DecidableEq

/-- The empty store right after `initialize`. -/
def DB.empty : DB := ⟨[], [], [], 0, 0⟩

/-- `getFileByPath`: `SELECT * FROM files WHERE path = ?` (first match). -/
def getFileByPath (db : DB) (path : String) : Option FileRecord :=
  db.files.find? (fun f => f.path == path)

/-- One primitive SQL statement issued by the store layer.  Modelling the
mutation methods as statement traces keeps the order in which the
individual DELETE/UPDATE/INSERT statements are issued observable. -/
inductive StoreOp where
  | deleteEmbedding (rowid : Nat)
  | deleteSlidesOfFile (fileId : Nat)
  | deleteFileRow (fileId : Nat)
  | updateFileMeta (fileId : Nat) (hash : String) (title : Option String) (indexedAt : Nat)
  | insertFileRow (f : FileRecord)
deriving DecidableEq

/-- Effect of one primitive statement on the store state. -/
def applyOp (db : DB) : StoreOp → DB
  | .deleteEmbedding rid =>
      { db with embeddings := db.embeddings.filter (fun e => e.1 != rid) }
  | .deleteSlidesOfFile fid =>
      { db with slides := db.slides.filter (fun s => s.fileId != fid) }
  | .deleteFileRow fid =>
      { db with files := db.files.filter (fun f => f.id != fid) }
  | .updateFileMeta fid h t ts =>
      { db with files := db.files.map (fun f =>
          if f.id == fid then { f with hash := h, title := t, indexedAt := ts } else f) }
  | .insertFileRow f =>
      { db with files := db.files ++ [f], nextFileId := db.nextFileId + 1 }

/-- Run a list of primitive statements in order. -/
def applyOps (db : DB) (ops : List StoreOp) : DB := ops.foldl applyOp db

/-- `SELECT id FROM slides WHERE file_id = ?` (the rows, in table order). -/
def fileSlides (db : DB) (fileId : Nat) : List SlideRecord :=
  db.slides.filter (fun s => s.fileId == fileId)

/-- `deleteFileSlides`: one `DELETE FROM slide_embeddings WHERE rowid = ?`
per slide id, then one bulk `DELETE FROM slides WHERE file_id = ?`. -/
def deleteFileSlidesOps (db : DB) (fileId : Nat) : List StoreOp :=
  (fileSlides db fileId).map (fun s => .deleteEmbedding s.id) ++
    [.deleteSlidesOfFile fileId]

/-- `Omit<FileRecord, "id">`: the argument of `upsertFile`. -/
structure FileInput where
  path : String
  hash : String
  title : Option String
  indexedAt : Nat
deriving DecidableEq

/-- The statement trace of `upsertFile`: on update, first the per-slide
embedding deletes and the bulk slide delete, then the metadata UPDATE;
otherwise a single INSERT. -/
def upsertFileOps (db : DB) (file : FileInput) : List StoreOp :=
  match getFileByPath db file.path with
  | some existing =>
      deleteFileSlidesOps db existing.id ++
        [.updateFileMeta existing.id file.hash file.title file.indexedAt]
  | none =>
      [.insertFileRow ⟨db.nextFileId, file.path, file.hash, file.title, file.indexedAt⟩]

/-- `upsertFile`: returns the new store state and the file id. -/
def upsertFile (db : DB) (file : FileInput) : DB × Nat :=
  (applyOps db (upsertFileOps db file),
   match getFileByPath db file.path with
   | some existing => existing.id
   | none => db.nextFileId)

/-- `deleteFileByPath`: cascade-deletes slides and vectors, then the file
row; returns `false` without mutating anything when the path is absent. -/
def deleteFileByPath (db : DB) (path : String) : DB × Bool :=
  match getFileByPath db path with
  | some existing =>
      (applyOps db (deleteFileSlidesOps db existing.id ++ [.deleteFileRow existing.id]), true)
  | none => (db, false)

/-- `Omit<SlideRecord, "id">`: the argument of `insertSlide`. -/
structure SlideInput where
  fileId : Nat
  slideIndex : Nat
  heading : Option String
  content : String
  textOnly : String
  speakerNotes : String
  imageDescriptions : String
deriving DecidableEq

/-- `insertSlide`: INSERT with AUTOINCREMENT id; returns the new id. -/
def insertSlide (db : DB) (s : SlideInput) : DB × Nat :=
  ({ db with
      slides := db.slides ++
        [⟨db.nextSlideId, s.fileId, s.slideIndex, s.heading, s.content,
          s.textOnly, s.speakerNotes, s.imageDescriptions⟩],
      nextSlideId := db.nextSlideId + 1 },
   db.nextSlideId)

/-- Modelled from the spec: the `slide_embeddings` vec0 virtual table is
declared `embedding float[768]` in `initialize`; the sqlite-vec extension
(an external library, not part of this repository's sources) rejects an
inserted vector whose length differs from the declared dimensionality
rather than truncating or padding it. -/
def vecTableAccepts (v : Vec) : Bool := v.length == EMBEDDING_DIMENSIONS

/-- `insertEmbedding`: the slide id is a raw JS number (modelled as `ℚ`);
the store itself rejects a non-integer or negative id before issuing the
INSERT, and the vec0 table then enforces the dimensionality. -/
def insertEmbedding (db : DB) (slideId : ℚ) (embedding : Vec) : Except String DB :=
  if ¬(slideId.den = 1) ∨ slideId < 0 then
    .error "Invalid slideId"
  else if vecTableAccepts embedding then
    .ok { db with embeddings := db.embeddings ++ [(slideId.num.toNat, embedding)] }
  else
    .error "Dimension mismatch"

/-- `SlideWithEmbedding`: a slide row together with its vector. -/
structure SlideWithEmbedding where
  fileId : Nat
  slideIndex : Nat
  heading : Option String
  content : String
  textOnly : String
  speakerNotes : String
  imageDescriptions : String
  embedding : Vec
deriving DecidableEq

/-- The relational part of a `SlideWithEmbedding`. -/
def SlideWithEmbedding.slideInput (s : SlideWithEmbedding) : SlideInput :=
  ⟨s.fileId, s.slideIndex, s.heading, s.content, s.textOnly, s.speakerNotes,
   s.imageDescriptions⟩

/-- `insertSlideWithEmbedding`: `insertSlide` followed by `insertEmbedding`. -/
def insertSlideWithEmbedding (db : DB) (s : SlideWithEmbedding) :
    Except String (DB × Nat) :=
  let p := insertSlide db s.slideInput
  (insertEmbedding p.1 (p.2 : ℚ) s.embedding).map (fun db2 => (db2, p.2))

/-- `getStats` (the row counts; the size of the database file on disk is
filesystem I/O and is not part of the store model). -/
structure DatabaseStats where
  totalFiles : Nat
  totalSlides : Nat
  totalEmbeddings : Nat
deriving DecidableEq

/-- `getStats`: the three `SELECT COUNT(*)` queries. -/
def getStats (db : DB) : DatabaseStats :=
  ⟨db.files.length, db.slides.length, db.embeddings.length⟩

/-- `clear`: empties all three tables. -/
def clear (db : DB) : DB := { db with files := [], slides := [], embeddings := [] }

/-! ## Similarity search (`searchSimilar` in database.ts) -/

/-- One row of `searchSimilar`'s result set. -/
structure SearchResult where
  slideId : Nat
  filePath : String
  fileTitle : Option String
  slideIndex : Nat
  heading : Option String
  content : String
  textOnly : String
  similarity : ℚ
deriving DecidableEq

/-- One row of the FROM/JOIN clause of the search query. -/
structure JoinRow where
  emb : Vec
  slide : SlideRecord
  file : FileRecord
deriving DecidableEq

/-- `FROM slide_embeddings e JOIN slides s ON e.rowid = s.id
JOIN files f ON s.file_id = f.id`, in table scan order. -/
def joinRows (db : DB) : List JoinRow :=
  db.embeddings.flatMap fun e =>
    (db.slides.filter (fun s => s.id == e.1)).flatMap fun s =>
      (db.files.filter (fun f => f.id == s.fileId)).map fun f => ⟨e.2, s, f⟩

/-- The SELECTed columns of one row, with its similarity value. -/
def toSearchResult (r : JoinRow) (similarity : ℚ) : SearchResult :=
  ⟨r.slide.id, r.file.path, r.file.title, r.slide.slideIndex, r.slide.heading,
   r.slide.content, r.slide.textOnly, similarity⟩

/-- Each join row paired with its `vec_distance_cosine(e.embedding, ?)`
value.  The numeric distance function `dist` itself lives in the external
sqlite-vec extension and is a parameter of the model. -/
def distPairs (dist : Vec → Vec → ℚ) (db : DB) (q : Vec) : List (JoinRow × ℚ) :=
  (joinRows db).map fun r => (r, dist r.emb q)

/-- `ORDER BY distance ASC`. -/
def byDistance (a b : JoinRow × ℚ) : Prop := a.2 ≤ b.2

instance : DecidableRel byDistance := fun a b =>
  inferInstanceAs (Decidable (a.2 ≤ b.2))

instance : IsTotal (JoinRow × ℚ) byDistance := ⟨fun a b => le_total a.2 b.2⟩

instance : IsTrans (JoinRow × ℚ) byDistance :=
  ⟨fun _ _ _ hab hbc => le_trans hab hbc⟩

/-- `searchSimilar`: rank all stored vectors by ascending distance to the
query vector, keep at most `limit` rows, report `similarity = 1 - distance`. -/
def searchSimilar (dist : Vec → Vec → ℚ) (db : DB) (q : Vec) (limit : Nat) :
    List SearchResult :=
  (((distPairs dist db q).insertionSort byDistance).take limit).map
    fun p => toSearchResult p.1 (1 - p.2)

/-- Modelled from the spec: `vec_distance_cosine` (sqlite-vec, an external
library) is a fatal configuration error on vectors of mismatched
dimensionality, not a silent zero-result; on well-dimensioned vectors it
computes the numeric cosine distance, abstracted here as `dist`. -/
def vecDistanceCosineE (dist : Vec → Vec → ℚ) (a b : Vec) : Except String ℚ :=
  if a.length = EMBEDDING_DIMENSIONS ∧ b.length = EMBEDDING_DIMENSIONS then
    .ok (dist a b)
  else
    .error "Dimension mismatch"

/-- Row-wise evaluation of the distance expression over the scanned rows;
the first mismatched row aborts the query. -/
def distRows (dist : Vec → Vec → ℚ) (q : Vec) :
    List JoinRow → Except String (List (JoinRow × ℚ))
  | [] => .ok []
  | r :: rs => do
      let d ← vecDistanceCosineE dist r.emb q
      let rest ← distRows dist q rs
      pure ((r, d) :: rest)

/-- `searchSimilar` with the dimensionality behaviour of the external
distance function made explicit (same ranking logic as `searchSimilar`). -/
def searchSimilarE (dist : Vec → Vec → ℚ) (db : DB) (q : Vec) (limit : Nat) :
    Except String (List SearchResult) :=
  (distRows dist q (joinRows db)).map fun pairs =>
    ((pairs.insertionSort byDistance).take limit).map
      fun p => toSearchResult p.1 (1 - p.2)

/-- `searchCommand` (search-cmd.ts): query the store with `limit`, then
filter the returned rows by the similarity threshold. -/
def searchCommandResults (dist : Vec → Vec → ℚ) (db : DB) (q : Vec)
    (limit : Nat) (threshold : ℚ) : List SearchResult :=
  (searchSimilar dist db q limit).filter fun r => decide (threshold ≤ r.similarity)

/-! ## Slide lookup (`getSlideByPathAndIndex` in database.ts) -/

/-- `FROM slides s JOIN files f ON s.file_id = f.id`, in scan order. -/
def slideFileRows (db : DB) : List (SlideRecord × FileRecord) :=
  db.slides.flatMap fun s =>
    (db.files.filter (fun f => f.id == s.fileId)).map fun f => (s, f)

/-- The exact-path query: `WHERE f.path = ? AND s.slide_index = ?`. -/
def findExactSlide (db : DB) (filePath : String) (slideIndex : Nat) :
    Option (SlideRecord × FileRecord) :=
  (slideFileRows db).find? fun p => p.2.path == filePath && p.1.slideIndex == slideIndex

/-- The fallback query: `WHERE f.path LIKE '%' || ? AND s.slide_index = ?`
(a stored path ending in the fragment). -/
def findSuffixSlide (db : DB) (filePath : String) (slideIndex : Nat) :
    Option (SlideRecord × FileRecord) :=
  (slideFileRows db).find? fun p => filePath.data.isSuffixOf p.2.path.data && p.1.slideIndex == slideIndex

/-- `getSlideByPathAndIndex`: exact match first, then the partial-path
fallback, else null. -/
def getSlideByPathAndIndex (db : DB) (filePath : String) (slideIndex : Nat) :
    Option SlideRecord :=
  match findExactSlide db filePath slideIndex with
  | some p => some p.1
  | none =>
      match findSuffixSlide db filePath slideIndex with
      | some p => some p.1
      | none => none

/-! ## Indexing pipeline (`indexCommand` in index-cmd.ts) -/

/-- The skip test of the indexing loop:
`existing && existing.hash === hash && !options.rebuild`. -/
def skipUnchanged (db : DB) (path hash : String) (rebuild : Bool) : Bool :=
  match getFileByPath db path with
  | some existing => existing.hash == hash && !rebuild
  | none => false

/-- One parsed slide of a document together with the embedding produced
for it in phase 3. -/
structure DocSlide where
  slideIndex : Nat
  heading : Option String
  content : String
  textOnly : String
  speakerNotes : String
  imageDescriptions : String
  embedding : Vec
deriving DecidableEq

/-- A parsed document: its title and its slides (with their embeddings). -/
structure DocData where
  title : Option String
  slides : List DocSlide
deriving DecidableEq

/-- Attach the owning file id to a parsed slide. -/
def DocSlide.withFileId (s : DocSlide) (fileId : Nat) : SlideWithEmbedding :=
  ⟨fileId, s.slideIndex, s.heading, s.content, s.textOnly, s.speakerNotes,
   s.imageDescriptions, s.embedding⟩

/-- Phase 4's inner loop for one document: insert every slide with its
embedding. -/
def insertDocSlides (db : DB) (fileId : Nat) (slides : List DocSlide) :
    Except String DB :=
  slides.foldlM
    (fun acc sl => (insertSlideWithEmbedding acc (sl.withFileId fileId)).map Prod.fst) db

/-- The per-document step of an indexing run: skip when the stored record
is fresh and no rebuild was requested; drop documents with zero slides;
otherwise upsert the file record and persist every slide with its vector.
Returns the new store state and whether the document was skipped. -/
def indexFileStep (db : DB) (path hash : String) (now : Nat) (doc : DocData)
    (rebuild : Bool) : Except String (DB × Bool) :=
  if skipUnchanged db path hash rebuild then
    .ok (db, true)
  else if doc.slides.isEmpty then
    .ok (db, false)
  else do
    let p := upsertFile db ⟨path, hash, doc.title, now⟩
    let db2 ← insertDocSlides p.1 p.2 doc.slides
    pure (db2, false)

/-! ## Gemini provider adapter (`src/core/gemini.ts`) -/

/-- Maximum batch size for `batchEmbedContents` (API limit: 250). -/
def EMBEDDING_BATCH_SIZE : Nat := 250

/-- Number of parallel batch requests per wave. -/
def PARALLEL_BATCHES : Nat := 3

/-- The chunking loop of `embedBatch`: `(startIndex, texts.slice(i, i+250))`
for `i = start, start+250, …`. -/
def mkChunks (texts : List String) (start : Nat) : List (Nat × List String) :=
  match texts with
  | [] => []
  | t :: ts =>
      (start, (t :: ts).take EMBEDDING_BATCH_SIZE) ::
        mkChunks ((t :: ts).drop EMBEDDING_BATCH_SIZE) (start + EMBEDDING_BATCH_SIZE)
termination_by texts.length
decreasing_by
  simp only [List.length_drop]
  exact Nat.sub_lt (List.length_pos.mpr (by simp)) (by decide)

/-- Group the chunk list into waves of `PARALLEL_BATCHES` chunks issued
concurrently. -/
def wavesOf : List α → List (List α)
  | [] => []
  | c :: cs =>
      (c :: cs.take (PARALLEL_BATCHES - 1)) :: wavesOf (cs.drop (PARALLEL_BATCHES - 1))
termination_by l => l.length
decreasing_by
  simp only [List.length_drop, List.length_cons]
  exact Nat.lt_succ_of_le (Nat.sub_le _ _)

/-- The write-back loop `results[chunk.startIndex + k] = response.embeddings[k]`:
store each vector of a response at consecutive positions. -/
def writeVecs (acc : List (Option Vec)) (start : Nat) : List Vec → List (Option Vec)
  | [] => acc
  | v :: vs => writeVecs (acc.set start (some v)) (start + 1) vs

/-- Processing one chunk: embed its texts (`f` is the provider's response
for one request) and write the response into the chunk's slots. -/
def chunkStep (f : String → Vec) (acc : List (Option Vec)) (c : Nat × List String) :
    List (Option Vec) :=
  writeVecs acc c.1 (c.2.map f)

/-- `embedBatch`: preallocate `new Array(texts.length)`, process the chunks
wave by wave, and read the reassembled results back out. -/
def embedBatch (f : String → Vec) (texts : List String) : List Vec :=
  ((wavesOf (mkChunks texts 0)).foldl
      (fun acc wave => wave.foldl (chunkStep f) acc)
      (List.replicate texts.length none)).map
    fun o => o.getD []

/-- One iteration of the `describeImages` loop: try to describe the image;
on success record the description, on failure record the empty string.
The JS `Map` is modelled by its lookup function (`set` = pointwise update). -/
def describeStep (describe : String → Except String String)
    (acc : String → Option String) (p : String) : String → Option String :=
  match describe p with
  | .ok d => fun k => if k = p then some d else acc k
  | .error _ => fun k => if k = p then some "" else acc k

/-- `describeImages`: one `describeImage` call per path (modelled by the
fallible `describe`); a failure records an empty description for that path
and processing continues with the remaining images. -/
def describeImages (describe : String → Except String String)
    (paths : List String) : String → Option String :=
  paths.foldl (describeStep describe) (fun _ => none)

/-- The description `describeImages` records for one path. -/
def describeOutcome (describe : String → Except String String) (p : String) : String :=
  match describe p with
  | .ok d => d
  | .error _ => ""

/-! ## Helper lemmas -/

theorem describeImages_foldl (describe : String → Except String String)
    (l : List String) (p : String) :
    ∀ acc : String → Option String,
      l.foldl (describeStep describe) acc p =
        if p ∈ l then some (describeOutcome describe p) else acc p := by
  induction l with
  | nil => intro acc; simp
  | cons q rest ih =>
      intro acc
      rw [List.foldl_cons, ih]
      by_cases hr : p ∈ rest
      · simp [hr]
      · by_cases hq : p = q
        · subst hq
          simp only [hr, if_false, List.mem_cons, true_or, if_true]
          cases h : describe p <;> simp [describeStep, describeOutcome, h]
        · have : p ∉ q :: rest := by simp [hq, hr]
          simp only [hr, if_false, this, if_false]
          cases h : describe q <;> simp [describeStep, h, hq]

/-! ## Claim theorems -/

/-- C9: for every input list of image paths, `describeImages` returns a map
with an entry for every input path; a failure while describing one image
records an empty-string description for that path and does not abort the
processing of the remaining images (the entry of every path, before or
after a failing one, is still present and determined by its own outcome). -/
theorem describeImages_covers_every_path
    (describe : String → Except String String) (paths : List String)
    (p : String) (hp : p ∈ paths) :
    describeImages describe paths p = some (describeOutcome describe p) := by
  rw [describeImages, describeImages_foldl]
  simp [hp]

/-- Witness for C9: a batch whose middle image fails still yields an entry
for the failing path (the empty string) and for the later path. -/
theorem describeImages_covers_every_path_witness :
    describeImages
        (fun s => if s = "b" then Except.error "boom" else Except.ok ("d:" ++ s))
        ["a", "b", "c"] "b" = some ""
      ∧ describeImages
          (fun s => if s = "b" then Except.error "boom" else Except.ok ("d:" ++ s))
          ["a", "b", "c"] "c" = some "d:c" := by
  constructor
  · rw [describeImages_covers_every_path
      (fun s => if s = "b" then Except.error "boom" else Except.ok ("d:" ++ s))
      ["a", "b", "c"] "b" (by decide)]
    rfl
  · rw [describeImages_covers_every_path
      (fun s => if s = "b" then Except.error "boom" else Except.ok ("d:" ++ s))
      ["a", "b", "c"] "c" (by decide)]
    rfl

/-- C7: vector insertion throws, inserting nothing, whenever the supplied
slide identifier is not an integer or is negative; the identifier is never
truncated or coerced to a valid row address. -/
theorem insertEmbedding_rejects_invalid_slideId (db : DB) (slideId : ℚ)
    (v : Vec) (h : ¬(slideId.den = 1) ∨ slideId < 0) :
    insertEmbedding db slideId v = .error "Invalid slideId" := by
  unfold insertEmbedding
  rw [if_pos h]

/-- Witness for C7: inserting at the negative identifier `-1` and at the
fractional identifier `1/2` both error out. -/
theorem insertEmbedding_rejects_invalid_slideId_witness :
    insertEmbedding DB.empty (-1 : ℚ) [] = .error "Invalid slideId"
      ∧ insertEmbedding DB.empty ((1 : ℚ) / 2) [] = .error "Invalid slideId" :=
  ⟨insertEmbedding_rejects_invalid_slideId DB.empty (-1) [] (Or.inr (by norm_num)),
   insertEmbedding_rejects_invalid_slideId DB.empty ((1 : ℚ) / 2) [] (Or.inl (by norm_num))⟩

/-- The Bool predicate of the exact-match query, in Prop form. -/
theorem findExactSlide_pred (fp : String) (idx : Nat)
    (p : SlideRecord × FileRecord) :
    (p.2.path == fp && p.1.slideIndex == idx) = true ↔
      p.2.path = fp ∧ p.1.slideIndex = idx := by
  simp

/-- The Bool predicate of the suffix-match query, in Prop form. -/
theorem findSuffixSlide_pred (fp : String) (idx : Nat)
    (p : SlideRecord × FileRecord) :
    (fp.data.isSuffixOf p.2.path.data && p.1.slideIndex == idx) = true ↔
      fp.data.isSuffixOf p.2.path.data = true ∧ p.1.slideIndex = idx := by
  simp

/-- C8: `getSlideByPathAndIndex` first attempts an exact match on the
stored document path; only when no exact match exists does it fall back to
stored paths that end with the fragment, returning the first such match in
scan order; when neither match exists it returns null. -/
theorem getSlideByPathAndIndex_lookup (db : DB) (fp : String) (idx : Nat) :
    ((∃ p ∈ slideFileRows db, p.2.path = fp ∧ p.1.slideIndex = idx) →
      ∃ s f, getSlideByPathAndIndex db fp idx = some s ∧
        (s, f) ∈ slideFileRows db ∧ f.path = fp ∧ s.slideIndex = idx)
    ∧ ((¬ ∃ p ∈ slideFileRows db, p.2.path = fp ∧ p.1.slideIndex = idx) →
        getSlideByPathAndIndex db fp idx = (findSuffixSlide db fp idx).map Prod.fst
        ∧ ((∃ p ∈ slideFileRows db, fp.data.isSuffixOf p.2.path.data = true ∧ p.1.slideIndex = idx) →
            ∃ s f, getSlideByPathAndIndex db fp idx = some s ∧
              (s, f) ∈ slideFileRows db ∧ fp.data.isSuffixOf f.path.data = true ∧ s.slideIndex = idx))
    ∧ ((¬ ∃ p ∈ slideFileRows db, p.2.path = fp ∧ p.1.slideIndex = idx) →
        (¬ ∃ p ∈ slideFileRows db, fp.data.isSuffixOf p.2.path.data = true ∧ p.1.slideIndex = idx) →
        getSlideByPathAndIndex db fp idx = none) := by
  refine ⟨?_, ?_, ?_⟩
  · intro hex
    have hsome : (findExactSlide db fp idx).isSome = true := by
      rw [findExactSlide, List.find?_isSome]
      obtain ⟨p, hmem, h1, h2⟩ := hex
      exact ⟨p, hmem, by simp [h1, h2]⟩
    obtain ⟨pr, hpr⟩ := Option.isSome_iff_exists.mp hsome
    have hpred := List.find?_some hpr
    have hmem := List.mem_of_find?_eq_some hpr
    refine ⟨pr.1, pr.2, ?_, by simpa using hmem, ?_, ?_⟩
    · rw [getSlideByPathAndIndex, hpr]
    · exact ((findExactSlide_pred fp idx pr).mp hpred).1
    · exact ((findExactSlide_pred fp idx pr).mp hpred).2
  · intro hnone
    have hfe : findExactSlide db fp idx = none := by
      rw [findExactSlide, List.find?_eq_none]
      intro x hx hpx
      exact hnone ⟨x, hx, (findExactSlide_pred fp idx x).mp hpx⟩
    constructor
    · rw [getSlideByPathAndIndex, hfe]
      cases h : findSuffixSlide db fp idx <;> simp [h]
    · intro hsuf
      have hsome : (findSuffixSlide db fp idx).isSome = true := by
        rw [findSuffixSlide, List.find?_isSome]
        obtain ⟨p, hmem, h1, h2⟩ := hsuf
        exact ⟨p, hmem, by simp [h1, h2]⟩
      obtain ⟨pr, hpr⟩ := Option.isSome_iff_exists.mp hsome
      have hpred := List.find?_some hpr
      have hmem := List.mem_of_find?_eq_some hpr
      refine ⟨pr.1, pr.2, ?_, by simpa using hmem, ?_, ?_⟩
      · rw [getSlideByPathAndIndex, hfe, hpr]
      · exact ((findSuffixSlide_pred fp idx pr).mp hpred).1
      · exact ((findSuffixSlide_pred fp idx pr).mp hpred).2
  · intro hnone hnsuf
    have hfe : findExactSlide db fp idx = none := by
      rw [findExactSlide, List.find?_eq_none]
      intro x hx hpx
      exact hnone ⟨x, hx, (findExactSlide_pred fp idx x).mp hpx⟩
    have hfs : findSuffixSlide db fp idx = none := by
      rw [findSuffixSlide, List.find?_eq_none]
      intro x hx hpx
      exact hnsuf ⟨x, hx, (findSuffixSlide_pred fp idx x).mp hpx⟩
    rw [getSlideByPathAndIndex, hfe, hfs]

/-- A one-file store used by concrete witnesses: a single slide stored at
`a/b/presentation.md` with slide index 2. -/
def sampleLookupDB : DB :=
  { files := [⟨0, "a/b/presentation.md", "h0", none, 0⟩],
    slides := [⟨0, 0, 2, none, "content", "text", "", ""⟩],
    embeddings := [],
    nextFileId := 1,
    nextSlideId := 1 }

/-- Witness for C8: `getSlide("presentation.md", 2)` resolves to the slide
stored at `a/b/presentation.md` via the suffix fallback, and
`getSlide("nomatch.md", 2)` returns not-found. -/
theorem getSlideByPathAndIndex_lookup_witness :
    (∃ s f, getSlideByPathAndIndex sampleLookupDB "presentation.md" 2 = some s ∧
        (s, f) ∈ slideFileRows sampleLookupDB ∧
        ("presentation.md").data.isSuffixOf f.path.data = true ∧ s.slideIndex = 2)
    ∧ getSlideByPathAndIndex sampleLookupDB "nomatch.md" 2 = none :=
  ⟨((getSlideByPathAndIndex_lookup sampleLookupDB "presentation.md" 2).2.1
      (by decide)).2 (by decide),
   (getSlideByPathAndIndex_lookup sampleLookupDB "nomatch.md" 2).2.2
      (by decide) (by decide)⟩

theorem applyOps_append (db : DB) (l1 l2 : List StoreOp) :
    applyOps db (l1 ++ l2) = applyOps (applyOps db l1) l2 := by
  simp [applyOps, List.foldl_append]

theorem applyOps_deleteEmbeddings (ids : List Nat) : ∀ db : DB,
    applyOps db (ids.map StoreOp.deleteEmbedding) =
      { db with embeddings := db.embeddings.filter (fun e => !(ids.contains e.1)) } := by
  induction ids with
  | nil =>
      intro db
      simp only [List.map_nil, applyOps, List.foldl_nil]
      cases db
      simp
  | cons i rest ih =>
      intro db
      have hstep : applyOps db ((i :: rest).map StoreOp.deleteEmbedding) =
          applyOps (applyOp db (.deleteEmbedding i)) (rest.map StoreOp.deleteEmbedding) := by
        simp [applyOps]
      rw [hstep, ih]
      cases db
      simp only [applyOp]
      rw [List.filter_filter]
      congr 1
      apply List.filter_congr
      intro e _
      cases h1 : (e.1 == i) <;> cases h2 : rest.contains e.1 <;>
        simp only [List.contains_cons, h1, h2, bne, Bool.not_false, Bool.not_true,
          Bool.and_false, Bool.and_true, Bool.false_and, Bool.true_and,
          Bool.false_or, Bool.or_false, Bool.or_true, Bool.true_or]

/-- The slide ids read at the start of `deleteFileSlides`. -/
def fileSlideIds (db : DB) (fileId : Nat) : List Nat :=
  (fileSlides db fileId).map SlideRecord.id

theorem applyOps_deleteFileSlidesOps (db : DB) (fid : Nat) :
    applyOps db (deleteFileSlidesOps db fid) =
      { db with
        slides := db.slides.filter (fun s => s.fileId != fid),
        embeddings :=
          db.embeddings.filter (fun e => !((fileSlideIds db fid).contains e.1)) } := by
  have hmap : (fileSlides db fid).map (fun s => StoreOp.deleteEmbedding s.id) =
      (fileSlideIds db fid).map StoreOp.deleteEmbedding := by
    simp [fileSlideIds, List.map_map, Function.comp]
  rw [deleteFileSlidesOps, hmap, applyOps_append, applyOps_deleteEmbeddings]
  simp [applyOps, applyOp]

theorem getFileByPath_upsertFile (db : DB) (file : FileInput) :
    ∃ fr, getFileByPath (upsertFile db file).1 file.path = some fr ∧
      fr.hash = file.hash := by
  unfold upsertFile upsertFileOps
  cases hex : getFileByPath db file.path with
  | none =>
      refine ⟨⟨db.nextFileId, file.path, file.hash, file.title, file.indexedAt⟩, ?_, rfl⟩
      simp only [applyOps, List.foldl_cons, List.foldl_nil, applyOp]
      rw [getFileByPath] at hex ⊢
      simp only [List.find?_append, hex, Option.none_or]
      simp [List.find?]
  | some ex =>
      rw [applyOps_append]
      rw [applyOps_deleteFileSlidesOps]
      refine ⟨{ ex with
                hash := file.hash,
                title := file.title,
                indexedAt := file.indexedAt }, ?_, rfl⟩
      simp only [applyOps, List.foldl_cons, List.foldl_nil, applyOp]
      rw [getFileByPath] at hex ⊢
      simp only
      rw [List.find?_map]
      have hcomp :
          ((fun f => f.path == file.path) ∘ fun f : FileRecord =>
            if f.id == ex.id then
              { f with
                hash := file.hash,
                title := file.title,
                indexedAt := file.indexedAt }
            else f) = fun f : FileRecord => f.path == file.path := by
        funext a
        by_cases h : a.id = ex.id <;> simp [h]
      rw [hcomp, hex]
      simp

theorem insertEmbedding_files (db : DB) (sid : ℚ) (v : Vec) (d : DB)
    (h : insertEmbedding db sid v = .ok d) : d.files = db.files := by
  unfold insertEmbedding at h
  split at h
  · exact Except.noConfusion h
  · split at h
    · cases h
      rfl
    · exact Except.noConfusion h

theorem insertSlideWithEmbedding_files (db : DB) (s : SlideWithEmbedding)
    (p : DB × Nat) (h : insertSlideWithEmbedding db s = .ok p) :
    p.1.files = db.files := by
  have h' : (insertEmbedding (insertSlide db s.slideInput).1
      (((insertSlide db s.slideInput).2 : Nat) : ℚ) s.embedding).map
        (fun db2 => (db2, (insertSlide db s.slideInput).2)) = .ok p := h
  cases hie : insertEmbedding (insertSlide db s.slideInput).1
      (((insertSlide db s.slideInput).2 : Nat) : ℚ) s.embedding with
  | error e => rw [hie] at h'; exact Except.noConfusion h'
  | ok d =>
      rw [hie] at h'
      simp only [Except.map, Except.ok.injEq] at h'
      have hd : p.1 = d := by rw [← h']
      rw [hd, insertEmbedding_files _ _ _ _ hie]
      rfl

theorem insertDocSlides_files (slides : List DocSlide) : ∀ (db : DB) (fid : Nat)
    (db2 : DB), insertDocSlides db fid slides = .ok db2 → db2.files = db.files := by
  induction slides with
  | nil =>
      intro db fid db2 h
      simp only [insertDocSlides, List.foldlM_nil] at h
      cases h
      rfl
  | cons s rest ih =>
      intro db fid db2 h
      rw [insertDocSlides, List.foldlM_cons] at h
      cases hstep : (insertSlideWithEmbedding db (s.withFileId fid)).map Prod.fst with
      | error e => rw [hstep] at h; exact Except.noConfusion h
      | ok d1 =>
          rw [hstep] at h
          have h2 : insertDocSlides d1 fid rest = .ok db2 := h
          have hfiles1 : d1.files = db.files := by
            cases hs : insertSlideWithEmbedding db (s.withFileId fid) with
            | error e => rw [hs] at hstep; simp [Except.map] at hstep
            | ok q =>
                rw [hs] at hstep
                simp only [Except.map, Except.ok.injEq] at hstep
                rw [← hstep]
                exact insertSlideWithEmbedding_files db (s.withFileId fid) q hs
          rw [ih d1 fid db2 h2, hfiles1]

theorem skipUnchanged_iff (db : DB) (path hash : String) (rebuild : Bool) :
    skipUnchanged db path hash rebuild = true ↔
      ((∃ fr, getFileByPath db path = some fr ∧ fr.hash = hash) ∧ rebuild = false) := by
  unfold skipUnchanged
  cases hex : getFileByPath db path with
  | none => simp
  | some ex =>
      simp only [Bool.and_eq_true, beq_iff_eq, Bool.not_eq_true', Option.some.injEq]
      constructor
      · rintro ⟨h1, h2⟩
        exact ⟨⟨ex, rfl, h1⟩, h2⟩
      · rintro ⟨⟨fr, hfr, hh⟩, h2⟩
        exact ⟨hfr ▸ hh, h2⟩

theorem indexFileStep_second_run (db : DB) (path hash : String) (now : Nat)
    (doc : DocData) (rebuild : Bool) (db1 : DB) (b : Bool)
    (h : indexFileStep db path hash now doc rebuild = .ok (db1, b)) (now2 : Nat) :
    ∃ b2, indexFileStep db1 path hash now2 doc false = .ok (db1, b2) := by
  unfold indexFileStep at h ⊢
  by_cases hskip : skipUnchanged db path hash rebuild = true
  · rw [if_pos hskip] at h
    have hdb : db = db1 := by
      have := (Except.ok.injEq _ _).mp h
      exact congrArg Prod.fst this
    subst hdb
    have hskip2 : skipUnchanged db path hash false = true := by
      obtain ⟨⟨fr, hfr, hh⟩, _⟩ := (skipUnchanged_iff db path hash rebuild).mp hskip
      exact (skipUnchanged_iff db path hash false).mpr ⟨⟨fr, hfr, hh⟩, rfl⟩
    rw [if_pos hskip2]
    exact ⟨true, rfl⟩
  · rw [if_neg hskip] at h
    by_cases hempty : doc.slides.isEmpty = true
    · rw [if_pos hempty] at h
      have hdb : db = db1 := by
        have := (Except.ok.injEq _ _).mp h
        exact congrArg Prod.fst this
      subst hdb
      by_cases hskip2 : skipUnchanged db path hash false = true
      · rw [if_pos hskip2]
        exact ⟨true, rfl⟩
      · rw [if_neg hskip2, if_pos hempty]
        exact ⟨false, rfl⟩
    · rw [if_neg hempty] at h
      cases hins : insertDocSlides (upsertFile db ⟨path, hash, doc.title, now⟩).1
          (upsertFile db ⟨path, hash, doc.title, now⟩).2 doc.slides with
      | error e =>
          rw [show (do
              let p := upsertFile db ⟨path, hash, doc.title, now⟩
              let db2 ← insertDocSlides p.1 p.2 doc.slides
              pure (db2, false) : Except String (DB × Bool)) =
            (insertDocSlides (upsertFile db ⟨path, hash, doc.title, now⟩).1
              (upsertFile db ⟨path, hash, doc.title, now⟩).2 doc.slides).bind
              (fun db2 => .ok (db2, false)) from rfl, hins] at h
          simp [Except.bind] at h
      | ok d2 =>
          rw [show (do
              let p := upsertFile db ⟨path, hash, doc.title, now⟩
              let db2 ← insertDocSlides p.1 p.2 doc.slides
              pure (db2, false) : Except String (DB × Bool)) =
            (insertDocSlides (upsertFile db ⟨path, hash, doc.title, now⟩).1
              (upsertFile db ⟨path, hash, doc.title, now⟩).2 doc.slides).bind
              (fun db2 => .ok (db2, false)) from rfl, hins] at h
          simp only [Except.bind, Except.ok.injEq] at h
          have hd2 : d2 = db1 := congrArg Prod.fst h
          rw [hd2] at hins
          obtain ⟨fr, hfr, hh⟩ :=
            getFileByPath_upsertFile db ⟨path, hash, doc.title, now⟩
          have hfiles : db1.files = (upsertFile db ⟨path, hash, doc.title, now⟩).1.files :=
            insertDocSlides_files doc.slides _ _ _ hins
          have hfr1 : getFileByPath db1 path = some fr := by
            rw [getFileByPath, hfiles]
            exact hfr
          have hskip2 : skipUnchanged db1 path hash false = true :=
            (skipUnchanged_iff db1 path hash false).mpr ⟨⟨fr, hfr1, hh⟩, rfl⟩
          rw [if_pos hskip2]
          exact ⟨true, rfl⟩

/-- C4: a document is skipped by the indexing run iff a stored record
exists for its path, the stored fingerprint equals the freshly computed
hash, and rebuild was not requested; consequently indexing the same
unchanged document a second time with rebuild=false performs no store
mutation (the step returns the store unchanged) and leaves the stats
unchanged. -/
theorem indexing_skip_iff_and_idempotent :
    (∀ (db : DB) (path hash : String) (rebuild : Bool),
      skipUnchanged db path hash rebuild = true ↔
        ((∃ fr, getFileByPath db path = some fr ∧ fr.hash = hash) ∧ rebuild = false))
    ∧ (∀ (db : DB) (path hash : String) (now : Nat) (doc : DocData)
        (rebuild : Bool) (db1 : DB) (b : Bool) (now2 : Nat),
        indexFileStep db path hash now doc rebuild = .ok (db1, b) →
        ∃ b2, indexFileStep db1 path hash now2 doc false = .ok (db1, b2) ∧
          (indexFileStep db1 path hash now2 doc false).map (fun r => getStats r.1) =
            .ok (getStats db1)) :=
  ⟨skipUnchanged_iff, fun db path hash now doc rebuild db1 b now2 h => by
    obtain ⟨b2, h2⟩ := indexFileStep_second_run db path hash now doc rebuild db1 b h now2
    exact ⟨b2, h2, by rw [h2]; rfl⟩⟩

/-- A one-slide document with a well-dimensioned embedding, used by the C4
witness. -/
def c4Doc : DocData :=
  ⟨some "T", [⟨0, some "H", "content", "text", "", "", List.replicate EMBEDDING_DIMENSIONS 0⟩]⟩

/-- The store after indexing `c4Doc` once into an empty store. -/
def c4FirstRunDB : DB :=
  match indexFileStep DB.empty "a.md" "h1" 5 c4Doc false with
  | .ok p => p.1
  | .error _ => DB.empty

set_option maxRecDepth 4000 in
/-- Witness for C4: the skip test on a concrete store, and a concrete
first indexing run of an unchanged document whose second run mutates
nothing. -/
theorem indexing_skip_iff_and_idempotent_witness :
    (skipUnchanged DB.empty "a.md" "h1" false = true ↔
      ((∃ fr, getFileByPath DB.empty "a.md" = some fr ∧ fr.hash = "h1") ∧ false = false))
    ∧ (∃ b2, indexFileStep c4FirstRunDB "a.md" "h1" 9 c4Doc false = .ok (c4FirstRunDB, b2) ∧
        (indexFileStep c4FirstRunDB "a.md" "h1" 9 c4Doc false).map (fun r => getStats r.1) =
          .ok (getStats c4FirstRunDB)) :=
  ⟨(indexing_skip_iff_and_idempotent.1) DB.empty "a.md" "h1" false,
   (indexing_skip_iff_and_idempotent.2) DB.empty "a.md" "h1" 5 c4Doc false
     c4FirstRunDB false 9 (by rfl)⟩

theorem upsertFile_some_eq (db : DB) (file : FileInput) (ex : FileRecord)
    (hex : getFileByPath db file.path = some ex) :
    (upsertFile db file).1 =
      { db with
        files := db.files.map (fun f =>
          if f.id == ex.id then
            { f with
              hash := file.hash,
              title := file.title,
              indexedAt := file.indexedAt }
          else f),
        slides := db.slides.filter (fun s => s.fileId != ex.id),
        embeddings :=
          db.embeddings.filter (fun e => !((fileSlideIds db ex.id).contains e.1)) } := by
  unfold upsertFile upsertFileOps
  rw [hex, applyOps_append, applyOps_deleteFileSlidesOps]
  simp [applyOps, applyOp]

theorem deleteFileByPath_some_eq (db : DB) (path : String) (ex : FileRecord)
    (hex : getFileByPath db path = some ex) :
    deleteFileByPath db path =
      ({ db with
          files := db.files.filter (fun f => f.id != ex.id),
          slides := db.slides.filter (fun s => s.fileId != ex.id),
          embeddings :=
            db.embeddings.filter (fun e => !((fileSlideIds db ex.id).contains e.1)) },
        true) := by
  unfold deleteFileByPath
  rw [hex]
  dsimp only
  rw [applyOps_append, applyOps_deleteFileSlidesOps]
  simp [applyOps, applyOp]

theorem mem_fileSlideIds (db : DB) (fid : Nat) (s : SlideRecord)
    (hs : s ∈ db.slides) (hfid : s.fileId = fid) : s.id ∈ fileSlideIds db fid := by
  rw [fileSlideIds]
  exact List.mem_map_of_mem SlideRecord.id
    (List.mem_filter.mpr ⟨hs, by simp [fileSlides, hfid]⟩)

theorem not_mem_fileSlideIds (db : DB) (fid : Nat) (s : SlideRecord)
    (hnodup : (db.slides.map SlideRecord.id).Nodup)
    (hs : s ∈ db.slides) (hfid : s.fileId ≠ fid) : s.id ∉ fileSlideIds db fid := by
  intro hmem
  rw [fileSlideIds] at hmem
  obtain ⟨s2, hs2, heq⟩ := List.mem_map.mp hmem
  have hs2' := List.mem_filter.mp hs2
  have hfid2 : s2.fileId = fid := by
    have := hs2'.2
    simpa [fileSlides] using this
  have : s2 = s := List.inj_on_of_nodup_map hnodup hs2'.1 hs heq
  exact hfid (this ▸ hfid2)

theorem slides_filter_pred_eq (db : DB) (fid : Nat)
    (hnodup : (db.slides.map SlideRecord.id).Nodup) :
    db.slides.filter (fun s => s.fileId != fid) =
      db.slides.filter (fun s => !((fileSlideIds db fid).contains s.id)) := by
  apply List.filter_congr
  intro s hs
  by_cases h : s.fileId = fid
  · have hmem : s.id ∈ fileSlideIds db fid := mem_fileSlideIds db fid s hs h
    simp [h, hmem]
  · have hnot : s.id ∉ fileSlideIds db fid := not_mem_fileSlideIds db fid s hnodup hs h
    simp [bne, h, hnot]

theorem perm_after_cascade (db : DB) (fid : Nat)
    (hnodup : (db.slides.map SlideRecord.id).Nodup)
    (hperm : (db.embeddings.map Prod.fst).Perm (db.slides.map SlideRecord.id)) :
    ((db.embeddings.filter
        (fun e => !((fileSlideIds db fid).contains e.1))).map Prod.fst).Perm
      ((db.slides.filter (fun s => s.fileId != fid)).map SlideRecord.id) := by
  rw [slides_filter_pred_eq db fid hnodup]
  have h1 : (db.embeddings.filter
      (fun e => !((fileSlideIds db fid).contains e.1))).map Prod.fst =
      (db.embeddings.map Prod.fst).filter
        (fun x => !((fileSlideIds db fid).contains x)) := by
    rw [List.filter_map]
    rfl
  have h2 : (db.slides.filter
      (fun s => !((fileSlideIds db fid).contains s.id))).map SlideRecord.id =
      (db.slides.map SlideRecord.id).filter
        (fun x => !((fileSlideIds db fid).contains x)) := by
    rw [List.filter_map]
    rfl
  rw [h1, h2]
  exact hperm.filter _

/-- C1: on a path that already has a stored record, `upsertFile` issues the
per-slide vector DELETEs first, then the bulk slide DELETE, and only then
the metadata UPDATE; no slide or vector of the old version survives, and
the `count(vectors) == count(slides)` invariant (stated as the stored
rowids being a permutation of the stored slide ids) is preserved. -/
theorem upsertFile_cascade_replaces (db : DB) (file : FileInput) (ex : FileRecord)
    (hex : getFileByPath db file.path = some ex)
    (hnodup : (db.slides.map SlideRecord.id).Nodup)
    (hperm : (db.embeddings.map Prod.fst).Perm (db.slides.map SlideRecord.id)) :
    upsertFileOps db file =
      (fileSlides db ex.id).map (fun s => StoreOp.deleteEmbedding s.id) ++
        [StoreOp.deleteSlidesOfFile ex.id,
         StoreOp.updateFileMeta ex.id file.hash file.title file.indexedAt]
    ∧ (∀ s ∈ db.slides, s.fileId = ex.id →
        s ∉ (upsertFile db file).1.slides ∧
          ∀ e ∈ (upsertFile db file).1.embeddings, e.1 ≠ s.id)
    ∧ ((upsertFile db file).1.embeddings.map Prod.fst).Perm
        ((upsertFile db file).1.slides.map SlideRecord.id)
    ∧ (upsertFile db file).1.embeddings.length = (upsertFile db file).1.slides.length := by
  have heq := upsertFile_some_eq db file ex hex
  refine ⟨?_, ?_, ?_, ?_⟩
  · unfold upsertFileOps deleteFileSlidesOps
    rw [hex]
    simp
  · intro s hs hfid
    rw [heq]
    constructor
    · intro hmem
      have := (List.mem_filter.mp hmem).2
      simp [bne, hfid] at this
    · intro e hmem
      have hpred := (List.mem_filter.mp hmem).2
      have hid : s.id ∈ fileSlideIds db ex.id := mem_fileSlideIds db ex.id s hs hfid
      intro habs
      rw [habs] at hpred
      simp [hid] at hpred
  · rw [heq]
    exact perm_after_cascade db ex.id hnodup hperm
  · rw [heq]
    have hlen := (perm_after_cascade db ex.id hnodup hperm).length_eq
    simpa [List.length_map] using hlen

/-- A two-slide store with matching vectors, used by the C1 and C6
witnesses. -/
def sampleCascadeDB : DB :=
  { files := [⟨0, "a.md", "h0", none, 0⟩],
    slides := [⟨0, 0, 0, none, "c0", "t0", "", ""⟩, ⟨1, 0, 1, none, "c1", "t1", "", ""⟩],
    embeddings := [(0, [1]), (1, [2])],
    nextFileId := 1,
    nextSlideId := 2 }

/-- Witness for C1: re-upserting `a.md` into the two-slide store issues the
cascade in order and leaves no old slide or vector behind. -/
theorem upsertFile_cascade_replaces_witness :
    upsertFileOps sampleCascadeDB ⟨"a.md", "h1", none, 7⟩ =
      (fileSlides sampleCascadeDB 0).map (fun s => StoreOp.deleteEmbedding s.id) ++
        [StoreOp.deleteSlidesOfFile 0,
         StoreOp.updateFileMeta 0 "h1" none 7]
    ∧ (∀ s ∈ sampleCascadeDB.slides, s.fileId = 0 →
        s ∉ (upsertFile sampleCascadeDB ⟨"a.md", "h1", none, 7⟩).1.slides ∧
          ∀ e ∈ (upsertFile sampleCascadeDB ⟨"a.md", "h1", none, 7⟩).1.embeddings,
            e.1 ≠ s.id)
    ∧ (((upsertFile sampleCascadeDB ⟨"a.md", "h1", none, 7⟩).1.embeddings.map
          Prod.fst).Perm
        ((upsertFile sampleCascadeDB ⟨"a.md", "h1", none, 7⟩).1.slides.map
          SlideRecord.id))
    ∧ (upsertFile sampleCascadeDB ⟨"a.md", "h1", none, 7⟩).1.embeddings.length =
        (upsertFile sampleCascadeDB ⟨"a.md", "h1", none, 7⟩).1.slides.length := by
  have h := upsertFile_cascade_replaces sampleCascadeDB ⟨"a.md", "h1", none, 7⟩
    ⟨0, "a.md", "h0", none, 0⟩ (by decide) (by decide) (by decide)
  exact h

/-- C6: `deleteFileByPath` returns false and performs no store mutation
when no record exists for the path; when a record exists it deletes all of
that document's slides and their vectors and the document row itself, and
returns true. -/
theorem deleteFileByPath_spec (db : DB) (path : String)
    (hpaths : (db.files.map FileRecord.path).Nodup) :
    (getFileByPath db path = none → deleteFileByPath db path = (db, false))
    ∧ (∀ ex, getFileByPath db path = some ex →
        (deleteFileByPath db path).2 = true
        ∧ getFileByPath (deleteFileByPath db path).1 path = none
        ∧ (∀ s ∈ db.slides, s.fileId = ex.id →
            s ∉ (deleteFileByPath db path).1.slides ∧
              ∀ e ∈ (deleteFileByPath db path).1.embeddings, e.1 ≠ s.id)) := by
  constructor
  · intro hnone
    unfold deleteFileByPath
    rw [hnone]
  · intro ex hex
    have heq := deleteFileByPath_some_eq db path ex hex
    have hexmem : ex ∈ db.files := List.mem_of_find?_eq_some hex
    have hexpath : ex.path = path := by
      have := List.find?_some hex
      simpa using this
    refine ⟨by rw [heq], ?_, ?_⟩
    · rw [heq]
      rw [getFileByPath]
      rw [List.find?_eq_none]
      intro f hf
      have hf' := List.mem_filter.mp hf
      intro hps
      have hfpath : f.path = path := by simpa using hps
      have : f = ex := List.inj_on_of_nodup_map hpaths hf'.1 hexmem
        (hfpath.trans hexpath.symm)
      have hid := hf'.2
      rw [this] at hid
      simp [bne] at hid
    · intro s hs hfid
      rw [heq]
      constructor
      · intro hmem
        have := (List.mem_filter.mp hmem).2
        simp [bne, hfid] at this
      · intro e hmem
        have hpred := (List.mem_filter.mp hmem).2
        have hid : s.id ∈ fileSlideIds db ex.id := mem_fileSlideIds db ex.id s hs hfid
        intro habs
        rw [habs] at hpred
        simp [hid] at hpred

/-- Witness for C6: deleting `a.md` from the two-slide store removes file,
slides and vectors; deleting a missing path mutates nothing. -/
theorem deleteFileByPath_spec_witness :
    (getFileByPath sampleCascadeDB "missing.md" = none →
      deleteFileByPath sampleCascadeDB "missing.md" = (sampleCascadeDB, false))
    ∧ (∀ ex, getFileByPath sampleCascadeDB "a.md" = some ex →
        (deleteFileByPath sampleCascadeDB "a.md").2 = true
        ∧ getFileByPath (deleteFileByPath sampleCascadeDB "a.md").1 "a.md" = none
        ∧ (∀ s ∈ sampleCascadeDB.slides, s.fileId = ex.id →
            s ∉ (deleteFileByPath sampleCascadeDB "a.md").1.slides ∧
              ∀ e ∈ (deleteFileByPath sampleCascadeDB "a.md").1.embeddings,
                e.1 ≠ s.id)) :=
  ⟨(deleteFileByPath_spec sampleCascadeDB "missing.md" (by decide)).1,
   (deleteFileByPath_spec sampleCascadeDB "a.md" (by decide)).2⟩

/-- All rows of the search query with their similarity, before ordering
and limiting. -/
def allSearchResults (dist : Vec → Vec → ℚ) (db : DB) (q : Vec) : List SearchResult :=
  (joinRows db).map fun jr => toSearchResult jr (1 - dist jr.emb q)

theorem sortedPairs_pairwise (dist : Vec → Vec → ℚ) (db : DB) (q : Vec) :
    ((distPairs dist db q).insertionSort byDistance).Pairwise byDistance :=
  List.sorted_insertionSort byDistance (distPairs dist db q)

theorem map_toResult_sortedPairs (dist : Vec → Vec → ℚ) (db : DB) (q : Vec) :
    (((distPairs dist db q).insertionSort byDistance).map
        (fun p => toSearchResult p.1 (1 - p.2))).Perm (allSearchResults dist db q) := by
  have h1 := (List.perm_insertionSort byDistance (distPairs dist db q)).map
    (fun p : JoinRow × ℚ => toSearchResult p.1 (1 - p.2))
  have h2 : (distPairs dist db q).map (fun p : JoinRow × ℚ => toSearchResult p.1 (1 - p.2)) =
      allSearchResults dist db q := by
    rw [distPairs, allSearchResults, List.map_map]
    rfl
  rw [h2] at h1
  exact h1

theorem cross_bound_take_drop (dist : Vec → Vec → ℚ) (db : DB) (q : Vec) (limit : Nat) :
    ∀ a ∈ ((distPairs dist db q).insertionSort byDistance).take limit,
      ∀ b ∈ ((distPairs dist db q).insertionSort byDistance).drop limit,
        a.2 ≤ b.2 := by
  have hp := sortedPairs_pairwise dist db q
  have hsplit :
      (((distPairs dist db q).insertionSort byDistance).take limit ++
        ((distPairs dist db q).insertionSort byDistance).drop limit).Pairwise byDistance := by
    rwa [List.take_append_drop]
  exact (List.pairwise_append.mp hsplit).2.2

/-- C2: `searchSimilar` returns at most `limit` rows; every returned row is
a stored join row reported with similarity `1 - distance`; the rows are in
non-increasing similarity order; and together with the dropped remainder
they form a permutation of all stored rows, every dropped row being at
least as distant as every returned one (the limit rows of smallest
distance). -/
theorem searchSimilar_ranking (dist : Vec → Vec → ℚ) (db : DB) (q : Vec)
    (limit : Nat) :
    (searchSimilar dist db q limit).length ≤ limit
    ∧ (∀ r ∈ searchSimilar dist db q limit,
        ∃ jr ∈ joinRows db, r = toSearchResult jr (1 - dist jr.emb q))
    ∧ (searchSimilar dist db q limit).Sorted
        (fun a b => b.similarity ≤ a.similarity)
    ∧ ∃ rest, ((searchSimilar dist db q limit) ++ rest).Perm
          (allSearchResults dist db q)
        ∧ ∀ a ∈ searchSimilar dist db q limit, ∀ b ∈ rest,
            b.similarity ≤ a.similarity := by
  refine ⟨?_, ?_, ?_, ?_⟩
  · rw [searchSimilar, List.length_map, List.length_take]
    exact min_le_left _ _
  · intro r hr
    rw [searchSimilar] at hr
    obtain ⟨p, hp, rfl⟩ := List.mem_map.mp hr
    have hp2 : p ∈ (distPairs dist db q).insertionSort byDistance :=
      List.mem_of_mem_take hp
    have hp3 : p ∈ distPairs dist db q :=
      (List.mem_insertionSort byDistance).mp hp2
    obtain ⟨jr, hjr, rfl⟩ := List.mem_map.mp hp3
    exact ⟨jr, hjr, rfl⟩
  · rw [searchSimilar]
    have hp : (((distPairs dist db q).insertionSort byDistance).take limit).Pairwise
        byDistance :=
      List.Pairwise.sublist (List.take_sublist limit _) (sortedPairs_pairwise dist db q)
    exact hp.map _ (fun a b hab => by
      show (toSearchResult b.1 (1 - b.2)).similarity ≤
        (toSearchResult a.1 (1 - a.2)).similarity
      show 1 - b.2 ≤ 1 - a.2
      exact sub_le_sub_left hab 1)
  · refine ⟨(((distPairs dist db q).insertionSort byDistance).drop limit).map
      (fun p => toSearchResult p.1 (1 - p.2)), ?_, ?_⟩
    · rw [searchSimilar, ← List.map_append, List.take_append_drop]
      exact map_toResult_sortedPairs dist db q
    · intro a ha b hb
      rw [searchSimilar] at ha
      obtain ⟨pa, hpa, rfl⟩ := List.mem_map.mp ha
      obtain ⟨pb, hpb, rfl⟩ := List.mem_map.mp hb
      have := cross_bound_take_drop dist db q limit pa hpa pb hpb
      show 1 - pb.2 ≤ 1 - pa.2
      exact sub_le_sub_left this 1

/-- A fixed distance function for the concrete search witnesses: the
distance of a stored vector is its first coordinate (the query is
ignored), so the three stored vectors of `sampleSearchDB` have distances
1/20, 1/2 and 9/10. -/
def headDist (a : Vec) (b : Vec) : ℚ := a.headD 0 + 0 * (b.headD 0)

/-- A three-vector store for the concrete search witnesses. -/
def sampleSearchDB : DB :=
  { files := [⟨0, "a.md", "h0", none, 0⟩],
    slides := [⟨0, 0, 0, none, "cA", "tA", "", ""⟩,
               ⟨1, 0, 1, none, "cB", "tB", "", ""⟩,
               ⟨2, 0, 2, none, "cC", "tC", "", ""⟩],
    embeddings := [(0, [1/20]), (1, [1/2]), (2, [9/10])],
    nextFileId := 1,
    nextSlideId := 3 }

/-- Witness for C2: the ranking properties at a concrete three-vector
store with limit 2, including the membership clause instantiated at the
top-ranked returned row (similarity `1 - 1/20 = 19/20 > 0.9`). -/
theorem searchSimilar_ranking_witness :
    ((searchSimilar headDist sampleSearchDB [0] 2).length ≤ 2
      ∧ (∀ r ∈ searchSimilar headDist sampleSearchDB [0] 2,
          ∃ jr ∈ joinRows sampleSearchDB, r = toSearchResult jr (1 - headDist jr.emb [0]))
      ∧ (searchSimilar headDist sampleSearchDB [0] 2).Sorted
          (fun a b => b.similarity ≤ a.similarity)
      ∧ ∃ rest, ((searchSimilar headDist sampleSearchDB [0] 2) ++ rest).Perm
            (allSearchResults headDist sampleSearchDB [0])
          ∧ ∀ a ∈ searchSimilar headDist sampleSearchDB [0] 2, ∀ b ∈ rest,
              b.similarity ≤ a.similarity)
    ∧ (∃ jr ∈ joinRows sampleSearchDB,
        toSearchResult ⟨[1/20], ⟨0, 0, 0, none, "cA", "tA", "", ""⟩,
            ⟨0, "a.md", "h0", none, 0⟩⟩ (19/20) =
          toSearchResult jr (1 - headDist jr.emb [0])) :=
  ⟨searchSimilar_ranking headDist sampleSearchDB [0] 2,
   (searchSimilar_ranking headDist sampleSearchDB [0] 2).2.1
     (toSearchResult ⟨[1/20], ⟨0, 0, 0, none, "cA", "tA", "", ""⟩,
        ⟨0, "a.md", "h0", none, 0⟩⟩ (19/20))
     (by norm_num [searchSimilar, distPairs, joinRows, sampleSearchDB, headDist,
        byDistance, toSearchResult, List.insertionSort, List.orderedInsert])⟩

theorem searchCommand_threshold_exhaustive (dist : Vec → Vec → ℚ) (db : DB)
    (q : Vec) (limit : Nat) (th : ℚ)
    (hlt : (searchCommandResults dist db q limit th).length < limit) :
    (searchCommandResults dist db q limit th).length =
      ((allSearchResults dist db q).filter
        (fun r => decide (th ≤ r.similarity))).length := by
  have hperm := (map_toResult_sortedPairs dist db q).filter
    (fun r => decide (th ≤ r.similarity))
  have hlenperm := hperm.length_eq
  rw [← hlenperm]
  have hsplit : ((distPairs dist db q).insertionSort byDistance).map
      (fun p => toSearchResult p.1 (1 - p.2)) =
      searchSimilar dist db q limit ++
        (((distPairs dist db q).insertionSort byDistance).drop limit).map
          (fun p => toSearchResult p.1 (1 - p.2)) := by
    rw [searchSimilar, ← List.map_append, List.take_append_drop]
  rw [hsplit, List.filter_append, List.length_append]
  have hdropnil : (((((distPairs dist db q).insertionSort byDistance).drop limit).map
      (fun p => toSearchResult p.1 (1 - p.2))).filter
        (fun r => decide (th ≤ r.similarity))) = [] := by
    by_cases hle : ((distPairs dist db q).insertionSort byDistance).length ≤ limit
    · rw [List.drop_eq_nil_of_le hle]
      rfl
    · have hlen : (searchSimilar dist db q limit).length = limit := by
        rw [searchSimilar, List.length_map, List.length_take]
        omega
      obtain ⟨x, hx, hpx⟩ : ∃ x ∈ searchSimilar dist db q limit,
          ¬ (decide (th ≤ x.similarity) = true) := by
        by_contra hall
        push_neg at hall
        have hself : (searchSimilar dist db q limit).filter
            (fun r => decide (th ≤ r.similarity)) = searchSimilar dist db q limit :=
          List.filter_eq_self.mpr hall
        rw [searchCommandResults, hself, hlen] at hlt
        exact lt_irrefl _ hlt
      rw [searchSimilar] at hx
      obtain ⟨a, ha, rfl⟩ := List.mem_map.mp hx
      have hxa : ¬ th ≤ 1 - a.2 := by simpa using hpx
      rw [List.filter_eq_nil_iff]
      intro y hy
      obtain ⟨b, hb, rfl⟩ := List.mem_map.mp hy
      have hab : a.2 ≤ b.2 := cross_bound_take_drop dist db q limit a ha b hb
      have : (1 : ℚ) - b.2 ≤ 1 - a.2 := sub_le_sub_left hab 1
      simp only [decide_eq_true_eq]
      show ¬ th ≤ 1 - b.2
      intro hth
      exact hxa (le_trans hth this)
  rw [hdropnil]
  simp [searchCommandResults]

/-- The scenario the claim asserts to be possible: an outward search that
returns fewer than `limit` rows while strictly more stored rows than were
returned satisfy the similarity threshold. -/
def c10MissedResultPossible : Prop :=
  ∃ (dist : Vec → Vec → ℚ) (db : DB) (q : Vec) (limit : Nat) (th : ℚ),
    (searchCommandResults dist db q limit th).length < limit ∧
    (searchCommandResults dist db q limit th).length <
      ((allSearchResults dist db q).filter
        (fun r => decide (th ≤ r.similarity))).length

/-- Counterexample to C10 as stated: because similarity `1 - distance` is
monotone in the ranking order, whenever fewer than `limit` rows come back,
the returned rows already are all stored rows satisfying the threshold —
the asserted possibility of missing qualifying slides cannot occur. -/
theorem searchCommand_missed_result_impossible : ¬ c10MissedResultPossible := by
  rintro ⟨dist, db, q, limit, th, h1, h2⟩
  rw [searchCommand_threshold_exhaustive dist db q limit th h1] at h2
  exact lt_irrefl _ h2

/-- C10 (amended): the similarity threshold is applied after the store
query has been truncated to the top `limit` rows — the returned results
are exactly the members of the top-`limit` result set whose similarity
meets the threshold, so fewer than `limit` rows may come back; but when
that happens the returned rows are already all stored rows satisfying the
threshold (no further qualifying stored slide was cut off by the limit). -/
theorem searchCommand_threshold_after_limit (dist : Vec → Vec → ℚ) (db : DB)
    (q : Vec) (limit : Nat) (th : ℚ) :
    (∀ r, r ∈ searchCommandResults dist db q limit th ↔
        (r ∈ searchSimilar dist db q limit ∧ th ≤ r.similarity))
    ∧ ((searchCommandResults dist db q limit th).length < limit →
        (searchCommandResults dist db q limit th).length =
          ((allSearchResults dist db q).filter
            (fun r => decide (th ≤ r.similarity))).length) := by
  constructor
  · intro r
    rw [searchCommandResults, List.mem_filter]
    simp
  · exact searchCommand_threshold_exhaustive dist db q limit th

/-- Witness for C10 (amended): with three stored rows, limit 5 and
threshold -1, three rows come back (fewer than the limit) and they exhaust
the stored rows satisfying the threshold. -/
theorem searchCommand_threshold_after_limit_witness :
    (∀ r, r ∈ searchCommandResults headDist sampleSearchDB [0] 5 (-1) ↔
        (r ∈ searchSimilar headDist sampleSearchDB [0] 5 ∧ (-1 : ℚ) ≤ r.similarity))
    ∧ (searchCommandResults headDist sampleSearchDB [0] 5 (-1)).length =
        ((allSearchResults headDist sampleSearchDB [0]).filter
          (fun r => decide ((-1 : ℚ) ≤ r.similarity))).length :=
  ⟨(searchCommand_threshold_after_limit headDist sampleSearchDB [0] 5 (-1)).1,
   (searchCommand_threshold_after_limit headDist sampleSearchDB [0] 5 (-1)).2
     (by norm_num [searchCommandResults, searchSimilar, distPairs, joinRows,
        sampleSearchDB, headDist, byDistance, toSearchResult,
        List.insertionSort, List.orderedInsert])⟩

/-- C5: inserting a vector whose length differs from the store's fixed
768 dimensionality is rejected at the store boundary with an error (never
silently truncated or padded), and a mismatched query-vector
dimensionality in search surfaces as a fatal error on any nonempty store
rather than a silent empty result. -/
theorem dimensionality_guard :
    (∀ (db : DB) (slideId : ℚ) (v : Vec), slideId.den = 1 → 0 ≤ slideId →
        v.length ≠ EMBEDDING_DIMENSIONS →
        insertEmbedding db slideId v = .error "Dimension mismatch")
    ∧ (∀ (dist : Vec → Vec → ℚ) (db : DB) (q : Vec) (limit : Nat),
        joinRows db ≠ [] → q.length ≠ EMBEDDING_DIMENSIONS →
        ∃ msg, searchSimilarE dist db q limit = .error msg) := by
  constructor
  · intro db slideId v hden hnonneg hlen
    unfold insertEmbedding
    rw [if_neg, if_neg]
    · intro h
      exact hlen (by simpa [vecTableAccepts] using h)
    · intro h
      rcases h with h | h
      · exact h hden
      · exact absurd h (not_lt.mpr hnonneg)
  · intro dist db q limit hjr hq
    obtain ⟨r, rs, hcons⟩ := List.exists_cons_of_ne_nil hjr
    have hd : vecDistanceCosineE dist r.emb q = .error "Dimension mismatch" := by
      unfold vecDistanceCosineE
      rw [if_neg]
      intro h
      exact hq h.2
    refine ⟨"Dimension mismatch", ?_⟩
    rw [searchSimilarE, hcons]
    have hrows : distRows dist q (r :: rs) = .error "Dimension mismatch" := by
      rw [distRows, hd]
      rfl
    rw [hrows]
    rfl

/-- Witness for C5: a 1-dimensional vector is rejected by insertion, and a
search with a 0-dimensional query vector over the nonempty three-vector
store errors out. -/
theorem dimensionality_guard_witness :
    insertEmbedding DB.empty 1 [0] = .error "Dimension mismatch"
    ∧ ∃ msg, searchSimilarE headDist sampleSearchDB [] 10 = .error msg :=
  ⟨dimensionality_guard.1 DB.empty 1 [0] (by norm_num) (by norm_num) (by decide),
   dimensionality_guard.2 headDist sampleSearchDB [] 10 (by decide) (by decide)⟩

theorem length_writeVecs (vs : List Vec) : ∀ (acc : List (Option Vec)) (start : Nat),
    (writeVecs acc start vs).length = acc.length := by
  induction vs with
  | nil => intro acc start; rfl
  | cons v vs ih =>
      intro acc start
      rw [writeVecs, ih, List.length_set]

theorem writeVecs_getElem?_outside (vs : List Vec) : ∀ (acc : List (Option Vec))
    (start j : Nat), (j < start ∨ start + vs.length ≤ j) →
    (writeVecs acc start vs)[j]? = acc[j]? := by
  induction vs with
  | nil => intro acc start j _; rfl
  | cons v vs ih =>
      intro acc start j hj
      simp only [List.length_cons] at hj
      rw [writeVecs, ih _ _ _ (by omega), List.getElem?_set, if_neg (by omega)]

theorem writeVecs_getElem?_inside (vs : List Vec) : ∀ (acc : List (Option Vec))
    (start k : Nat), k < vs.length → start + vs.length ≤ acc.length →
    (writeVecs acc start vs)[start + k]? = (vs[k]?).map some := by
  induction vs with
  | nil =>
      intro acc start k hk _
      simp at hk
  | cons v vs ih =>
      intro acc start k hk hle
      simp only [List.length_cons] at hk hle
      rw [writeVecs]
      cases k with
      | zero =>
          rw [writeVecs_getElem?_outside vs _ _ _ (Or.inl (by omega)),
            List.getElem?_set, if_pos (by omega : start = start + 0),
            if_pos (by omega), List.getElem?_cons_zero]
          rfl
      | succ k2 =>
          have harr : start + (k2 + 1) = (start + 1) + k2 := by omega
          rw [harr, ih _ _ _ (by omega) (by rw [List.length_set]; omega),
            List.getElem?_cons_succ]

theorem length_chunkFold (f : String → Vec) (cs : List (Nat × List String)) :
    ∀ acc, (cs.foldl (chunkStep f) acc).length = acc.length := by
  induction cs with
  | nil => intro acc; rfl
  | cons c cs ih =>
      intro acc
      rw [List.foldl_cons, ih, chunkStep, length_writeVecs]

theorem mkChunks_foldl_spec (f : String → Vec) (texts : List String) (start : Nat) :
    ∀ acc : List (Option Vec), start + texts.length ≤ acc.length →
      (∀ i, i < texts.length →
        ((mkChunks texts start).foldl (chunkStep f) acc)[start + i]? =
          (texts[i]?).map (fun t => some (f t)))
      ∧ (∀ j, (j < start ∨ start + texts.length ≤ j) →
        ((mkChunks texts start).foldl (chunkStep f) acc)[j]? = acc[j]?) := by
  induction texts, start using mkChunks.induct with
  | case1 start =>
      intro acc _
      constructor
      · intro i hi
        simp at hi
      · intro j _
        simp [mkChunks]
  | case2 start t ts ih =>
      intro acc hle
      rw [mkChunks, List.foldl_cons]
      by_cases hB : (t :: ts).length ≤ EMBEDDING_BATCH_SIZE
      · have htake : (t :: ts).take EMBEDDING_BATCH_SIZE = t :: ts :=
          List.take_of_length_le hB
        have hdrop : (t :: ts).drop EMBEDDING_BATCH_SIZE = [] :=
          List.drop_eq_nil_of_le hB
        rw [htake, hdrop]
        have hnil : mkChunks ([] : List String) (start + EMBEDDING_BATCH_SIZE) = [] := by
          rw [mkChunks]
        rw [hnil, List.foldl_nil, chunkStep]
        constructor
        · intro i hi
          have := writeVecs_getElem?_inside ((t :: ts).map f) acc start i
            (by simpa using hi) (by simpa using hle)
          rw [this, List.getElem?_map, Option.map_map]
          rfl
        · intro j hj
          exact writeVecs_getElem?_outside ((t :: ts).map f) acc start j
            (by simpa using hj)
      · push_neg at hB
        have htklen : ((t :: ts).take EMBEDDING_BATCH_SIZE).length =
            EMBEDDING_BATCH_SIZE := by
          rw [List.length_take]
          omega
        have hdrlen : ((t :: ts).drop EMBEDDING_BATCH_SIZE).length =
            (t :: ts).length - EMBEDDING_BATCH_SIZE := List.length_drop _ _
        have hacc1len :
            (chunkStep f acc (start, (t :: ts).take EMBEDDING_BATCH_SIZE)).length =
              acc.length := by
          rw [chunkStep, length_writeVecs]
        obtain ⟨ihIn, ihOut⟩ := ih
          (chunkStep f acc (start, (t :: ts).take EMBEDDING_BATCH_SIZE))
          (by rw [hacc1len, hdrlen]; omega)
        constructor
        · intro i hi
          by_cases hiB : i < EMBEDDING_BATCH_SIZE
          · rw [ihOut (start + i) (Or.inl (by omega))]
            rw [chunkStep]
            have := writeVecs_getElem?_inside (((t :: ts).take EMBEDDING_BATCH_SIZE).map f)
              acc start i (by rw [List.length_map, htklen]; omega)
              (by rw [List.length_map, htklen]; omega)
            rw [this, List.getElem?_map, List.getElem?_take, if_pos hiB, Option.map_map]
            rfl
          · have hrw : start + i = (start + EMBEDDING_BATCH_SIZE) +
                (i - EMBEDDING_BATCH_SIZE) := by omega
            rw [hrw, ihIn (i - EMBEDDING_BATCH_SIZE) (by omega)]
            rw [List.getElem?_drop]
            have : EMBEDDING_BATCH_SIZE + (i - EMBEDDING_BATCH_SIZE) = i := by omega
            rw [this]
        · intro j hj
          rw [ihOut j ?_]
          · rw [chunkStep]
            refine writeVecs_getElem?_outside _ _ _ _ ?_
            rw [List.length_map, htklen]
            rcases hj with h | h
            · exact Or.inl h
            · exact Or.inr (by omega)
          · rcases hj with h | h
            · exact Or.inl (by omega)
            · exact Or.inr (by omega)

theorem wavesOf_flatten : ∀ (l : List (Nat × List String)),
    (wavesOf l).flatten = l := by
  intro l
  induction l using wavesOf.induct with
  | case1 => rw [wavesOf]; rfl
  | case2 c cs ih =>
      rw [wavesOf, List.flatten_cons, ih, List.cons_append, List.take_append_drop]

theorem embedBatch_waves_eq (f : String → Vec) (texts : List String)
    (init : List (Option Vec)) :
    (wavesOf (mkChunks texts 0)).foldl
        (fun acc wave => wave.foldl (chunkStep f) acc) init =
      (mkChunks texts 0).foldl (chunkStep f) init := by
  rw [← List.foldl_flatten (chunkStep f) init (wavesOf (mkChunks texts 0)),
    wavesOf_flatten]

theorem mkChunks_start_le : ∀ (texts : List String) (start : Nat)
    (c : Nat × List String), c ∈ mkChunks texts start → start ≤ c.1 := by
  intro texts start
  induction texts, start using mkChunks.induct with
  | case1 start =>
      intro c hc
      rw [mkChunks] at hc
      simp at hc
  | case2 start t ts ih =>
      intro c hc
      rw [mkChunks] at hc
      rcases List.mem_cons.mp hc with h | h
      · rw [h]
      · exact le_trans (by omega) (ih c h)

theorem mkChunks_pairwise (texts : List String) (start : Nat) :
    (mkChunks texts start).Pairwise (fun a b => a.1 + a.2.length ≤ b.1) := by
  induction texts, start using mkChunks.induct with
  | case1 start =>
      rw [mkChunks]
      exact List.Pairwise.nil
  | case2 start t ts ih =>
      rw [mkChunks]
      refine List.Pairwise.cons ?_ ih
      intro c hc
      have h1 := mkChunks_start_le _ _ c hc
      have h2 : ((t :: ts).take EMBEDDING_BATCH_SIZE).length ≤
          EMBEDDING_BATCH_SIZE := by
        rw [List.length_take]
        omega
      dsimp only
      omega

theorem writeVecs_set_comm (vs : List Vec) : ∀ (acc : List (Option Vec))
    (start j : Nat) (a : Option Vec), (j < start ∨ start + vs.length ≤ j) →
    writeVecs (acc.set j a) start vs = (writeVecs acc start vs).set j a := by
  induction vs with
  | nil => intro acc start j a _; rfl
  | cons v vs ih =>
      intro acc start j a hj
      simp only [List.length_cons] at hj
      rw [writeVecs, List.set_comm _ _ _ (by omega : j ≠ start),
        ih _ _ _ _ (by omega), writeVecs]

theorem writeVecs_comm (vs2 : List Vec) : ∀ (vs1 : List Vec)
    (acc : List (Option Vec)) (s1 s2 : Nat), s1 + vs1.length ≤ s2 →
    writeVecs (writeVecs acc s1 vs1) s2 vs2 =
      writeVecs (writeVecs acc s2 vs2) s1 vs1 := by
  induction vs2 with
  | nil => intro vs1 acc s1 s2 _; rfl
  | cons v vs2 ih =>
      intro vs1 acc s1 s2 hle
      rw [writeVecs, ← writeVecs_set_comm vs1 acc s1 s2 (some v) (Or.inr hle),
        ih vs1 (acc.set s2 (some v)) s1 (s2 + 1) (by omega), writeVecs]

theorem chunkStep_comm (f : String → Vec) (x y : Nat × List String)
    (hdisj : x.1 + x.2.length ≤ y.1 ∨ y.1 + y.2.length ≤ x.1) (z : List (Option Vec)) :
    chunkStep f (chunkStep f z x) y = chunkStep f (chunkStep f z y) x := by
  rcases hdisj with h | h
  · exact writeVecs_comm (y.2.map f) (x.2.map f) z x.1 y.1
      (by rw [List.length_map]; exact h)
  · exact (writeVecs_comm (x.2.map f) (y.2.map f) z y.1 x.1
      (by rw [List.length_map]; exact h)).symm

/-- C3: `embedBatch` returns one vector per input text, with `result[i]`
the embedding of `texts[i]` for every position — also beyond one provider
chunk (250) and beyond one concurrent wave (3 chunks) — and the write-back
fold is invariant under any permutation of the issued chunks, so the
reassembly does not depend on the completion order of the concurrent
requests. -/
theorem embedBatch_order (f : String → Vec) (texts : List String) :
    (embedBatch f texts).length = texts.length
    ∧ (∀ i : Nat, (embedBatch f texts)[i]? = (texts[i]?).map f)
    ∧ (∀ cs : List (Nat × List String), cs.Perm (mkChunks texts 0) →
        cs.foldl (chunkStep f) (List.replicate texts.length none) =
          (mkChunks texts 0).foldl (chunkStep f) (List.replicate texts.length none)) := by
  have hlenfin : ((mkChunks texts 0).foldl (chunkStep f)
      (List.replicate texts.length (none : Option Vec))).length = texts.length := by
    rw [length_chunkFold, List.length_replicate]
  refine ⟨?_, ?_, ?_⟩
  · rw [embedBatch, List.length_map, embedBatch_waves_eq, hlenfin]
  · intro i
    rw [embedBatch, List.getElem?_map, embedBatch_waves_eq]
    by_cases hi : i < texts.length
    · obtain ⟨hin, _⟩ := mkChunks_foldl_spec f texts 0
        (List.replicate texts.length none) (by simp)
      have := hin i hi
      rw [Nat.zero_add] at this
      rw [this, Option.map_map]
      rfl
    · push_neg at hi
      rw [List.getElem?_eq_none (le_trans hlenfin.le hi),
        List.getElem?_eq_none hi]
      rfl
  · intro cs hperm
    refine hperm.foldl_eq' ?_ _
    intro x hx y hy z
    by_cases hxy : x = y
    · rw [hxy]
    · have hx2 : x ∈ mkChunks texts 0 := hperm.mem_iff.mp hx
      have hy2 : y ∈ mkChunks texts 0 := hperm.mem_iff.mp hy
      have hsym : Symmetric (fun a b : Nat × List String =>
          a.1 + a.2.length ≤ b.1 ∨ b.1 + b.2.length ≤ a.1) := by
        intro a b hab
        exact hab.symm
      have hpw : (mkChunks texts 0).Pairwise (fun a b : Nat × List String =>
          a.1 + a.2.length ≤ b.1 ∨ b.1 + b.2.length ≤ a.1) :=
        (mkChunks_pairwise texts 0).imp (fun h => Or.inl h)
      exact chunkStep_comm f x y (hpw.forall hsym hx2 hy2 hxy) z

/-- 751 input texts: more than one provider chunk (250) and more than one
concurrent wave (3 chunks), for the C3 witness. -/
def longBatchTexts : List String := (List.range 751).map (fun n => Nat.repr n)

/-- A deterministic stand-in embedding function for the C3 witness. -/
def reprEmbed (s : String) : Vec := [(s.length : ℚ)]

/-- Witness for C3: the order guarantees instantiated on a 751-text batch,
with the chunk fold evaluated against the reversed (worst-case completion
order) chunk list. -/
theorem embedBatch_order_witness :
    (embedBatch reprEmbed longBatchTexts).length = longBatchTexts.length
    ∧ (embedBatch reprEmbed longBatchTexts)[750]? =
        (longBatchTexts[750]?).map reprEmbed
    ∧ ((mkChunks longBatchTexts 0).reverse.foldl (chunkStep reprEmbed)
          (List.replicate longBatchTexts.length none) =
        (mkChunks longBatchTexts 0).foldl (chunkStep reprEmbed)
          (List.replicate longBatchTexts.length none)) :=
  ⟨(embedBatch_order reprEmbed longBatchTexts).1,
   (embedBatch_order reprEmbed longBatchTexts).2.1 750,
   (embedBatch_order reprEmbed longBatchTexts).2.2
     (mkChunks longBatchTexts 0).reverse (List.reverse_perm _)⟩

end MarpLens
